import Mathlib

/-
Verification of the financial_analyzer metrics pipeline and signal
detector.

The Python source (src/processor.py, src/signals.py) is embedded
shallowly: pandas Series cells are `Option ℚ` (NaN / absent = `none`),
DataFrames are lists of structures, and the vectorised pandas
operations (rolling windows, shift, merge_asof, ffill, np.where)
become explicit positional list functions.  Dates are abstracted as
naturals in the processing pipeline (only their order matters there)
and as their ISO strings in the signal detector (which merely formats
them with strftime).
-/

/-! ## Signal detector (src/signals.py) -/

/-- A row of the signal-detector input table: a date (kept as the ISO
string that `strftime("%Y-%m-%d")` would produce) and the two SMA
columns, with pandas NaN cells as `none`.  The model takes the two SMA
columns as given (the source's missing-column early return is outside
every claim). -/
structure IndRow where
  date : String
  short : Option ℚ
  long : Option ℚ
deriving DecidableEq

/-- pandas elementwise `>` on cells: any comparison with NaN is False. -/
def pdGT : Option ℚ → Option ℚ → Bool
  | some x, some y => decide (y < x)
  | _, _ => false

/-- pandas elementwise `<=` on cells: any comparison with NaN is False. -/
def pdLE : Option ℚ → Option ℚ → Bool
  | some x, some y => decide (x ≤ y)
  | _, _ => false

/-- pandas elementwise `<` on cells: any comparison with NaN is False. -/
def pdLT : Option ℚ → Option ℚ → Bool
  | some x, some y => decide (x < y)
  | _, _ => false

/-- pandas elementwise `>=` on cells: any comparison with NaN is False. -/
def pdGE : Option ℚ → Option ℚ → Bool
  | some x, some y => decide (y ≤ x)
  | _, _ => false

/-- The short-SMA cell at position `i` (out-of-range reads are never
used by the detector, which ranges over `rows.length`). -/
def shortAt (rows : List IndRow) (i : ℕ) : Option ℚ :=
  (rows.getD i ⟨"", none, none⟩).short

/-- The long-SMA cell at position `i`. -/
def longAt (rows : List IndRow) (i : ℕ) : Option ℚ :=
  (rows.getD i ⟨"", none, none⟩).long

/-- The date cell at position `i`. -/
def dateAt (rows : List IndRow) (i : ℕ) : String :=
  (rows.getD i ⟨"", none, none⟩).date

/-- The boolean mask `cross_up` of `detect_golden_crossover`
(src/signals.py lines 31-37) at position `i`: current short strictly
above current long, previous-row relation at-or-below (pandas
`shift(1)`: the cell at `i-1`, absent at `i = 0`), and both current
cells non-NaN (the `mask` conjunct). -/
def goldenMask (rows : List IndRow) (i : ℕ) : Bool :=
  let ps := if i = 0 then none else shortAt rows (i-1)
  let pl := if i = 0 then none else longAt rows (i-1)
  pdGT (shortAt rows i) (longAt rows i) && pdLE ps pl
    && (shortAt rows i).isSome && (longAt rows i).isSome

/-- The boolean mask `cross_down` of `detect_death_cross`
(src/signals.py lines 63-69) at position `i`. -/
def deathMask (rows : List IndRow) (i : ℕ) : Bool :=
  let ps := if i = 0 then none else shortAt rows (i-1)
  let pl := if i = 0 then none else longAt rows (i-1)
  pdLT (shortAt rows i) (longAt rows i) && pdGE ps pl
    && (shortAt rows i).isSome && (longAt rows i).isSome

/-- `detect_golden_crossover` (src/signals.py): the dates of the rows
selected by the `cross_up` mask, in row order. -/
def detect_golden_crossover (rows : List IndRow) : List String :=
  (List.range rows.length).filterMap fun i =>
    if goldenMask rows i then some (dateAt rows i) else none

/-- `detect_death_cross` (src/signals.py): the dates of the rows
selected by the `cross_down` mask, in row order. -/
def detect_death_cross (rows : List IndRow) : List String :=
  (List.range rows.length).filterMap fun i =>
    if deathMask rows i then some (dateAt rows i) else none

/-- The synthetic scenario of the spec and of test_signals.py:
short = [5,5,5,6,7], long = [5,5,6,6,6], dated 2020-01-01..05. -/
def scenarioGolden : List IndRow :=
  [⟨"2020-01-01", some 5, some 5⟩, ⟨"2020-01-02", some 5, some 5⟩,
   ⟨"2020-01-03", some 5, some 6⟩, ⟨"2020-01-04", some 6, some 6⟩,
   ⟨"2020-01-05", some 7, some 6⟩]

/-- The NaN edge-case table of test_signals.py: short = [5, NA, 7],
long = [6, 6, 6], dated 2020-01-01..03. -/
def scenarioNaN : List IndRow :=
  [⟨"2020-01-01", some 5, some 6⟩, ⟨"2020-01-02", none, some 6⟩,
   ⟨"2020-01-03", some 7, some 6⟩]

/-! ## Metrics pipeline (src/processor.py) -/

/-- A normalised price record (src/processor.py lines 52-88): the date
as an ordinal (a pandas Timestamp, of which only the order is used),
OHLCV cells as `Option ℚ` (NaN = `none`).  The model starts after the
column-name normalisation and the sort; the claims all stipulate
ascending, date-unique input, on which the source's `sort_values` is
the identity.  `open` is a Lean keyword, so that column is `openV`. -/
structure PriceRow where
  date : ℕ
  openV : Option ℚ
  high : Option ℚ
  low : Option ℚ
  close : Option ℚ
  volume : Option ℚ
deriving DecidableEq

/-- A quarterly fundamentals snapshot after date normalisation
(src/processor.py lines 90-106).  The financial fields modelled are
the ones the claims exercise (`total_liab`, `cash`); further sparse
fields of the snapshot dict behave identically.  A field the snapshot
does not report is `none`. -/
structure Snap where
  date : ℕ
  total_liab : Option ℚ
  cash : Option ℚ
deriving DecidableEq

/-- The point-in-time `info` mapping (src/processor.py lines 189-200).
Each field is one dict key, `none` when the key is missing.
`totalLiab` is a key the dict may carry but that `process_data` never
reads (the source has no info-level fallback for liabilities); it is
included so the spec's claimed fallback can be stated and compared. -/
structure Info where
  marketCap : Option ℚ
  market_cap : Option ℚ
  totalCash : Option ℚ
  cash : Option ℚ
  cashAndCashEquivalents : Option ℚ
  totalLiab : Option ℚ
deriving DecidableEq

/-- The configuration record (src/processor.py lines 46-50) with the
source's defaults. -/
structure Config where
  sma_short_window : ℕ := 50
  min_trading_days_for_sma : ℕ := 200
  rolling_days_for_52week : ℕ := 252
deriving DecidableEq

/-- A working-table row right after the merge_asof alignment
(src/processor.py line 108): the price columns plus the attached
fundamental columns. -/
structure Row where
  date : ℕ
  openV : Option ℚ
  high : Option ℚ
  low : Option ℚ
  close : Option ℚ
  volume : Option ℚ
  total_liab : Option ℚ
  cash : Option ℚ
deriving DecidableEq

def rowNone : Row := ⟨0, none, none, none, none, none, none, none⟩

/-- The `pd.merge_asof(..., direction="backward")` match: the last
fundamentals row whose date is ≤ the price date (both inputs are
sorted ascending, so last = most recent). -/
def merge_asof_match (qdf : List Snap) (d : ℕ) : Option Snap :=
  (qdf.filter (fun s => s.date ≤ d)).getLast?

/-- One merged row: price fields pass through, fundamental fields come
from the matched snapshot (absent when there is none, which also
covers the source's no-fundamentals branch where the columns never
appear). -/
def mergedRow (qdf : List Snap) (p : PriceRow) : Row :=
  { date := p.date, openV := p.openV, high := p.high, low := p.low,
    close := p.close, volume := p.volume,
    total_liab := (merge_asof_match qdf p.date).bind (fun s => s.total_liab),
    cash := (merge_asof_match qdf p.date).bind (fun s => s.cash) }

/-- One cell of `DataFrame.ffill`: keep the cell when present, else
take the (already filled) cell above. -/
def fillField (prev cur : Option ℚ) : Option ℚ :=
  match cur with
  | some x => some x
  | none => prev

/-- One row of the whole-table `DataFrame.ffill` of src/processor.py
line 129: every column fills from the previous row; `date` has no
missing values. -/
def fillRow (prev cur : Row) : Row :=
  { date := cur.date,
    openV := fillField prev.openV cur.openV,
    high := fillField prev.high cur.high,
    low := fillField prev.low cur.low,
    close := fillField prev.close cur.close,
    volume := fillField prev.volume cur.volume,
    total_liab := fillField prev.total_liab cur.total_liab,
    cash := fillField prev.cash cur.cash }

def ffillGo : Row → List Row → List Row
  | _, [] => []
  | prev, r :: rs => fillRow prev r :: ffillGo (fillRow prev r) rs

/-- `DataFrame.ffill` over the whole working table. -/
def ffill_rows (rows : List Row) : List Row := ffillGo rowNone rows

def ffillColGo : Option ℚ → List (Option ℚ) → List (Option ℚ)
  | _, [] => []
  | prev, c :: cs => fillField prev c :: ffillColGo (fillField prev c) cs

/-- Single-column forward fill, used to state the per-column effect of
the whole-table `ffill`. -/
def ffillCol (xs : List (Option ℚ)) : List (Option ℚ) := ffillColGo none xs

/-- The trailing window of length `w` ending at position `i`. -/
def windowAt (xs : List (Option ℚ)) (w i : ℕ) : List (Option ℚ) :=
  (xs.take (i+1)).drop (i+1-w)

/-- `Series.rolling(window=w, min_periods=m).mean()` at position `i`:
the mean of the non-NaN cells of the trailing window, absent when
fewer than `max m 1` of them exist (pandas needs at least one
observation even for `min_periods=0`). -/
def rollingMean (w m : ℕ) (xs : List (Option ℚ)) (i : ℕ) : Option ℚ :=
  if max m 1 ≤ ((windowAt xs w i).reduceOption).length then
    some (((windowAt xs w i).reduceOption).sum /
      (((windowAt xs w i).reduceOption).length : ℚ))
  else none

/-- The maximum of a list of rationals (`none` when empty). -/
def listMax : List ℚ → Option ℚ
  | [] => none
  | x :: xs =>
      match listMax xs with
      | none => some x
      | some m => some (max x m)

/-- `Series.rolling(window=w, min_periods=1).max()` at position `i`:
the max of the non-NaN cells of the trailing window, absent when all
of them are NaN. -/
def rollingMax (w : ℕ) (xs : List (Option ℚ)) (i : ℕ) : Option ℚ :=
  listMax ((windowAt xs w i).reduceOption)

/-- Python `a or b` on optional numbers: `a` when present and nonzero
(truthy), else `b`. -/
def pyOr (a b : Option ℚ) : Option ℚ :=
  match a with
  | some x => if x = 0 then b else some x
  | none => b

/-- Python `x or np.nan`: a falsy value (absent or zero) becomes NaN. -/
def pyTruthy (a : Option ℚ) : Option ℚ :=
  match a with
  | some x => if x = 0 then none else some x
  | none => none

/-- `market_cap = info.get("marketCap") or info.get("market_cap")`
followed by `mc = market_cap or np.nan` (src/processor.py lines 190
and 204). -/
def resolveMarketCap (info : Info) : Option ℚ :=
  pyTruthy (pyOr info.marketCap info.market_cap)

/-- `cash_info = info.get("totalCash") or info.get("cash") or
info.get("cashAndCashEquivalents")` (src/processor.py lines 198-200). -/
def cashInfoOf (info : Info) : Option ℚ :=
  pyOr info.totalCash (pyOr info.cash info.cashAndCashEquivalents)

/-- `_compute_ev` (src/processor.py lines 203-225) on one already
forward-filled row: the row's liability when present, else a zero
contribution (there is no info fallback for liabilities); the row's
cash when present, else the info fallback `cash_info or np.nan`; an
absent market cap makes the result absent. -/
def compute_ev (info : Info) (r : Row) : Option ℚ :=
  match resolveMarketCap info with
  | none => none
  | some mc =>
      let ca :=
        match r.cash with
        | some c => some c
        | none => pyTruthy (cashInfoOf info)
      some (mc + r.total_liab.getD 0 - ca.getD 0)

/-- A row of the output metrics DataFrame.  The source column
`52wk_high` is `wk52_high` here (a Lean name cannot start with a
digit). -/
structure OutRow where
  date : ℕ
  openV : Option ℚ
  high : Option ℚ
  low : Option ℚ
  close : Option ℚ
  volume : Option ℚ
  total_liab : Option ℚ
  cash : Option ℚ
  sma_50 : Option ℚ
  sma_200 : Option ℚ
  wk52_high : Option ℚ
  pct_from_52wk_high : Option ℚ
  ev : Option ℚ
deriving DecidableEq

def outNone : OutRow :=
  ⟨0, none, none, none, none, none, none, none, none, none, none, none, none⟩

/-- `process_data` (src/processor.py lines 25-233) on already
normalised ascending inputs: merge_asof-align the fundamentals onto
the price dates, forward-fill every column of the working table, then
append the rolling indicators (SMA 50/200 over `close` with
min_periods = min(window, max(1, len)); the `52wk_high` rolling max of
`close` with min_periods = 1; the `np.where`-guarded percent-from-high)
and the per-row `_compute_ev` enterprise value.  The `bvps`/`pb_ratio`
columns and the early returns for empty or date-less input (which
coincide with this general path producing no rows) are outside every
claim and are not modelled.  The pipeline is split into named stages:
`workingTable` (alignment + whole-table ffill), `outRowAt` (one output
row), `process_data` (the full table). -/
def workingTable (ps : List PriceRow) (qdf : List Snap) : List Row :=
  ffill_rows (ps.map (mergedRow qdf))

/-- The output row `process_data` builds at position `i` of the filled
working table: the row's (filled) columns plus the indicator cells at
`i` (SMA 50/200 over the `close` column with min_periods =
min(window, max(1, len)); rolling max of `close` with min_periods = 1;
`np.where(high52 > 0, (close - high52)/high52, nan)`) and
`_compute_ev`. -/
def outRowAt (ps : List PriceRow) (qdf : List Snap) (info : Info)
    (cfg : Config) (i : ℕ) : OutRow :=
  { date := ((workingTable ps qdf).getD i rowNone).date,
    openV := ((workingTable ps qdf).getD i rowNone).openV,
    high := ((workingTable ps qdf).getD i rowNone).high,
    low := ((workingTable ps qdf).getD i rowNone).low,
    close := ((workingTable ps qdf).getD i rowNone).close,
    volume := ((workingTable ps qdf).getD i rowNone).volume,
    total_liab := ((workingTable ps qdf).getD i rowNone).total_liab,
    cash := ((workingTable ps qdf).getD i rowNone).cash,
    sma_50 := rollingMean cfg.sma_short_window
      (min cfg.sma_short_window (max 1 (workingTable ps qdf).length))
      ((workingTable ps qdf).map (fun r => r.close)) i,
    sma_200 := rollingMean cfg.min_trading_days_for_sma
      (min cfg.min_trading_days_for_sma (max 1 (workingTable ps qdf).length))
      ((workingTable ps qdf).map (fun r => r.close)) i,
    wk52_high := rollingMax cfg.rolling_days_for_52week
      ((workingTable ps qdf).map (fun r => r.close)) i,
    pct_from_52wk_high :=
      match rollingMax cfg.rolling_days_for_52week
          ((workingTable ps qdf).map (fun r => r.close)) i,
        ((workingTable ps qdf).getD i rowNone).close with
      | some h, some c => if 0 < h then some ((c - h) / h) else none
      | _, _ => none,
    ev := compute_ev info ((workingTable ps qdf).getD i rowNone) }

def process_data (ps : List PriceRow) (qdf : List Snap) (info : Info)
    (cfg : Config) : List OutRow :=
  (List.range (workingTable ps qdf).length).map (outRowAt ps qdf info cfg)

/-- The 52-week-high column as the SPEC describes it (refinement
comparison only; the source computes the rolling max of `close`
instead): "a trailing maximum of `high` over a configurable window
(default 252 trading days), with the same adaptive minimum-count
rule". -/
def rollingHigh_specModel (ps : List PriceRow) (w i : ℕ) : Option ℚ :=
  rollingMax w (ps.map (fun p => p.high)) i

/-- Enterprise value as the SPEC describes it (refinement comparison
only): market_cap + total_liabilities − cash, "where total_liabilities
and cash prefer the row's own aligned fundamental value and fall back
to the point-in-time snapshot's value if the row's is absent". -/
def ev_specModel (info : Info) (r : Row) : Option ℚ :=
  match resolveMarketCap info with
  | none => none
  | some mc =>
      let tl :=
        match r.total_liab with
        | some t => some t
        | none => info.totalLiab
      let ca :=
        match r.cash with
        | some c => some c
        | none => pyTruthy (cashInfoOf info)
      some (mc + tl.getD 0 - ca.getD 0)

def priceNone : PriceRow := ⟨0, none, none, none, none, none⟩

/-- `s` is a most recent fundamental snapshot at-or-before date `d`
(the as-of join target the spec describes). -/
def IsAsof (qdf : List Snap) (d : ℕ) (s : Snap) : Prop :=
  s ∈ qdf ∧ s.date ≤ d ∧ ∀ t ∈ qdf, t.date ≤ d → t.date ≤ s.date

/-- Every financial field of the snapshot is reported (snapshots may
be sparse in general; the alignment claim speaks of rows carrying
whole snapshots). -/
def SnapComplete (s : Snap) : Prop :=
  s.total_liab.isSome ∧ s.cash.isSome

/-- All price fields of a bar are present. -/
def PriceComplete (p : PriceRow) : Prop :=
  p.openV.isSome ∧ p.high.isSome ∧ p.low.isSome ∧ p.close.isSome ∧
    p.volume.isSome

/-! ## Theorems -/

lemma mem_golden_iff {rows : List IndRow} {x : String} :
    x ∈ detect_golden_crossover rows ↔
      ∃ i, i < rows.length ∧ goldenMask rows i = true ∧ dateAt rows i = x := by
  unfold detect_golden_crossover
  rw [List.mem_filterMap]
  constructor
  · rintro ⟨i, hi, hf⟩
    rw [List.mem_range] at hi
    by_cases h : goldenMask rows i
    · rw [if_pos h] at hf
      exact ⟨i, hi, h, Option.some.inj hf⟩
    · rw [if_neg h] at hf
      cases hf
  · rintro ⟨i, hi, hm, hd⟩
    exact ⟨i, List.mem_range.mpr hi, by rw [if_pos hm, hd]⟩

lemma mem_death_iff {rows : List IndRow} {x : String} :
    x ∈ detect_death_cross rows ↔
      ∃ i, i < rows.length ∧ deathMask rows i = true ∧ dateAt rows i = x := by
  unfold detect_death_cross
  rw [List.mem_filterMap]
  constructor
  · rintro ⟨i, hi, hf⟩
    rw [List.mem_range] at hi
    by_cases h : deathMask rows i
    · rw [if_pos h] at hf
      exact ⟨i, hi, h, Option.some.inj hf⟩
    · rw [if_neg h] at hf
      cases hf
  · rintro ⟨i, hi, hm, hd⟩
    exact ⟨i, List.mem_range.mpr hi, by rw [if_pos hm, hd]⟩

lemma dateAt_inj {rows : List IndRow}
    (hU : (rows.map (fun r => r.date)).Nodup)
    {i j : ℕ} (hi : i < rows.length) (hj : j < rows.length)
    (h : dateAt rows i = dateAt rows j) : i = j := by
  have hi' : i < (rows.map (fun r => r.date)).length := by simpa using hi
  have hj' : j < (rows.map (fun r => r.date)).length := by simpa using hj
  have hget : (rows.map (fun r => r.date)).get ⟨i, hi'⟩ =
      (rows.map (fun r => r.date)).get ⟨j, hj'⟩ := by
    simpa [List.getElem_map, dateAt, List.getD_eq_getElem?_getD,
      List.getElem?_eq_getElem, hi, hj] using h
  have := (List.Nodup.get_inj_iff hU).mp hget
  simpa using congrArg Fin.val this

/-- C4: on any input table with unique dates, at every index `i ≥ 1`
where both SMA series are defined at `i` and `i-1`,
`detect_golden_crossover` emits date `i` iff `short[i] > long[i]` and
`short[i-1] ≤ long[i-1]`, and `detect_death_cross` emits date `i` iff
`short[i] < long[i]` and `short[i-1] ≥ long[i-1]`; and on the concrete
scenario short=[5,5,5,6,7], long=[5,5,6,6,6] dated 2020-01-01..05 the
golden-crossover detector returns exactly ["2020-01-05"]. -/
theorem C4_crossover_characterisation :
    (∀ (rows : List IndRow) (i : ℕ) (a b a' b' : ℚ),
        (rows.map (fun r => r.date)).Nodup →
        1 ≤ i → i < rows.length →
        shortAt rows i = some a → longAt rows i = some b →
        shortAt rows (i-1) = some a' → longAt rows (i-1) = some b' →
        ((dateAt rows i ∈ detect_golden_crossover rows ↔ (b < a ∧ a' ≤ b')) ∧
         (dateAt rows i ∈ detect_death_cross rows ↔ (a < b ∧ b' ≤ a')))) ∧
    detect_golden_crossover scenarioGolden = ["2020-01-05"] := by
  constructor
  · intro rows i a b a' b' hU h1 hn hsa hlb hsa' hlb'
    have hi0 : ¬ i = 0 := by omega
    have hgm : goldenMask rows i = (decide (b < a) && decide (a' ≤ b')) := by
      simp [goldenMask, hi0, hsa, hlb, hsa', hlb', pdGT, pdLE]
    have hdm : deathMask rows i = (decide (a < b) && decide (b' ≤ a')) := by
      simp [deathMask, hi0, hsa, hlb, hsa', hlb', pdLT, pdGE]
    constructor
    · constructor
      · intro hmem
        rcases mem_golden_iff.mp hmem with ⟨j, hj, hmj, hdj⟩
        have : j = i := dateAt_inj hU hj hn hdj
        subst this
        rw [hgm] at hmj
        simpa using hmj
      · intro hcond
        refine mem_golden_iff.mpr ⟨i, hn, ?_, rfl⟩
        rw [hgm]
        simp [hcond.1, hcond.2]
    · constructor
      · intro hmem
        rcases mem_death_iff.mp hmem with ⟨j, hj, hmj, hdj⟩
        have : j = i := dateAt_inj hU hj hn hdj
        subst this
        rw [hdm] at hmj
        simpa using hmj
      · intro hcond
        refine mem_death_iff.mpr ⟨i, hn, ?_, rfl⟩
        rw [hdm]
        simp [hcond.1, hcond.2]
  · decide

/-- Witness for C4: the characterisation applied to the concrete
scenario at index 4 (date 2020-01-05). -/
theorem C4_crossover_characterisation_witness :
    ("2020-01-05" ∈ detect_golden_crossover scenarioGolden ↔
      ((6:ℚ) < 7 ∧ (6:ℚ) ≤ 6)) :=
  (C4_crossover_characterisation.1 scenarioGolden 4 7 6 6 6 (by decide)
    (by decide) (by decide) (by decide) (by decide) (by decide) (by decide)).1

/-- C6: on any input table with unique dates, if either SMA series is
undefined at `i` or at `i-1` (including `i = 0`, which has no previous
row), then the crossover masks at `i` are false and neither detector
emits an event at date `i`. -/
theorem C6_undefined_rows_never_emit :
    ∀ (rows : List IndRow) (i : ℕ),
      i < rows.length →
      (rows.map (fun r => r.date)).Nodup →
      (shortAt rows i = none ∨ longAt rows i = none ∨ i = 0 ∨
        shortAt rows (i-1) = none ∨ longAt rows (i-1) = none) →
      goldenMask rows i = false ∧ deathMask rows i = false ∧
        dateAt rows i ∉ detect_golden_crossover rows ∧
        dateAt rows i ∉ detect_death_cross rows := by
  intro rows i hn hU hcase
  have hmask : goldenMask rows i = false ∧ deathMask rows i = false := by
    rcases hcase with h | h | h | h | h
    · constructor <;> simp [goldenMask, deathMask, h, pdGT, pdLT]
    · constructor <;> simp [goldenMask, deathMask, h, pdGT, pdLT]
    · constructor <;> simp [goldenMask, deathMask, h, pdLE, pdGE]
    · by_cases h0 : i = 0
      · constructor <;> simp [goldenMask, deathMask, h0, pdLE, pdGE]
      · constructor <;> simp [goldenMask, deathMask, h0, h, pdLE, pdGE]
    · by_cases h0 : i = 0
      · constructor <;> simp [goldenMask, deathMask, h0, pdLE, pdGE]
      · constructor <;> simp [goldenMask, deathMask, h0, h, pdLE, pdGE]
  refine ⟨hmask.1, hmask.2, ?_, ?_⟩
  · intro hmem
    rcases mem_golden_iff.mp hmem with ⟨j, hj, hmj, hdj⟩
    have : j = i := dateAt_inj hU hj hn hdj
    subst this
    rw [hmask.1] at hmj
    cases hmj
  · intro hmem
    rcases mem_death_iff.mp hmem with ⟨j, hj, hmj, hdj⟩
    have : j = i := dateAt_inj hU hj hn hdj
    subst this
    rw [hmask.2] at hmj
    cases hmj

/-- Witness for C6: the row with an absent short SMA (index 1) emits
nothing. -/
theorem C6_undefined_rows_never_emit_witness :
    goldenMask scenarioNaN 1 = false ∧ deathMask scenarioNaN 1 = false ∧
      dateAt scenarioNaN 1 ∉ detect_golden_crossover scenarioNaN ∧
      dateAt scenarioNaN 1 ∉ detect_death_cross scenarioNaN :=
  C6_undefined_rows_never_emit scenarioNaN 1 (by decide) (by decide)
    (Or.inl (by decide))

lemma getD_eq_get {α : Type} {l : List α} {d : α} {i : ℕ} (h : i < l.length) :
    l.getD i d = l.get ⟨i, h⟩ := by
  simp [List.getD_eq_getElem?_getD, List.getElem?_eq_getElem h]

lemma getD_range_map {α : Type} (f : ℕ → α) (d : α) {i n : ℕ} (h : i < n) :
    ((List.range n).map f).getD i d = f i := by
  rw [List.getD_eq_getElem?_getD, List.getElem?_map, List.getElem?_range h]
  rfl

lemma map_range_getD {α β : Type} (l : List α) (d : α) (f : α → β) :
    (List.range l.length).map (fun i => f (l.getD i d)) = l.map f := by
  apply List.ext_getElem
  · simp
  · intro i h1 h2
    have h : i < l.length := by simpa using h2
    simp [List.getElem_map, List.getElem_range, List.getD_eq_getElem?_getD,
      List.getElem?_eq_getElem h]

lemma ffillGo_length (prev : Row) (rows : List Row) :
    (ffillGo prev rows).length = rows.length := by
  induction rows generalizing prev with
  | nil => rfl
  | cons r rs ih => simp [ffillGo, ih]

lemma ffill_rows_length (rows : List Row) :
    (ffill_rows rows).length = rows.length := ffillGo_length _ _

lemma ffillGo_map_date (prev : Row) (rows : List Row) :
    (ffillGo prev rows).map (fun r => r.date) =
      rows.map (fun r => r.date) := by
  induction rows generalizing prev with
  | nil => rfl
  | cons r rs ih => simp [ffillGo, fillRow, ih]

lemma ffillGo_map_close (prev : Row) (rows : List Row) :
    (ffillGo prev rows).map (fun r => r.close) =
      ffillColGo prev.close (rows.map (fun r => r.close)) := by
  induction rows generalizing prev with
  | nil => rfl
  | cons r rs ih => simp [ffillGo, ffillColGo, fillRow, ih]

lemma ffillGo_map_high (prev : Row) (rows : List Row) :
    (ffillGo prev rows).map (fun r => r.high) =
      ffillColGo prev.high (rows.map (fun r => r.high)) := by
  induction rows generalizing prev with
  | nil => rfl
  | cons r rs ih => simp [ffillGo, ffillColGo, fillRow, ih]

lemma ffillGo_getD_succ (rows : List Row) :
    ∀ (prev : Row) (i : ℕ), i + 1 < rows.length →
      (ffillGo prev rows).getD (i+1) rowNone =
        fillRow ((ffillGo prev rows).getD i rowNone)
          (rows.getD (i+1) rowNone) := by
  induction rows with
  | nil => intro prev i h; simp at h
  | cons r rs ih =>
      intro prev i h
      cases i with
      | zero =>
          cases rs with
          | nil => simp at h
          | cons s ss => simp [ffillGo]
      | succ j =>
          have hj : j + 1 < rs.length := by simpa using h
          have := ih (fillRow prev r) j hj
          simpa [ffillGo] using this

lemma workingTable_length (ps : List PriceRow) (qdf : List Snap) :
    (workingTable ps qdf).length = ps.length := by
  simp [workingTable, ffill_rows_length]

lemma process_data_length (ps : List PriceRow) (qdf : List Snap)
    (info : Info) (cfg : Config) :
    (process_data ps qdf info cfg).length = ps.length := by
  simp [process_data, workingTable_length]

lemma process_data_getD (ps : List PriceRow) (qdf : List Snap) (info : Info)
    (cfg : Config) {i : ℕ} (h : i < ps.length) :
    (process_data ps qdf info cfg).getD i outNone =
      outRowAt ps qdf info cfg i := by
  unfold process_data
  exact getD_range_map _ _ (by rw [workingTable_length]; exact h)

lemma process_data_getD_ge (ps : List PriceRow) (qdf : List Snap)
    (info : Info) (cfg : Config) {i : ℕ} (h : ps.length ≤ i) :
    (process_data ps qdf info cfg).getD i outNone = outNone := by
  rw [List.getD_eq_getElem?_getD, List.getElem?_eq_none]
  · rfl
  · rw [process_data_length]
    exact h

lemma outRowAt_wk52 (ps : List PriceRow) (qdf : List Snap) (info : Info)
    (cfg : Config) (i : ℕ) :
    (outRowAt ps qdf info cfg i).wk52_high =
      rollingMax cfg.rolling_days_for_52week
        ((workingTable ps qdf).map (fun r => r.close)) i := rfl

lemma outRowAt_pct (ps : List PriceRow) (qdf : List Snap) (info : Info)
    (cfg : Config) (i : ℕ) :
    (outRowAt ps qdf info cfg i).pct_from_52wk_high =
      match rollingMax cfg.rolling_days_for_52week
          ((workingTable ps qdf).map (fun r => r.close)) i,
        ((workingTable ps qdf).getD i rowNone).close with
      | some h, some c => if 0 < h then some ((c - h) / h) else none
      | _, _ => none := rfl

lemma getD_map_close {rows : List Row} {i : ℕ} (h : i < rows.length) :
    (rows.map (fun r => r.close)).getD i none =
      (rows.getD i rowNone).close := by
  simp [List.getD_eq_getElem?_getD, List.getElem?_map,
    List.getElem?_eq_getElem h]

lemma listMax_cons (x : ℚ) (xs : List ℚ) :
    ∃ m, listMax (x :: xs) = some m := by
  unfold listMax
  cases listMax xs <;> simp

lemma listMax_ge : ∀ {l : List ℚ} {m a : ℚ},
    listMax l = some m → a ∈ l → a ≤ m := by
  intro l
  induction l with
  | nil => intro m a _ h; cases h
  | cons x xs ih =>
      intro m a hmax hmem
      rcases List.mem_cons.mp hmem with rfl | hmem'
      · cases hx : listMax xs with
        | none =>
            rw [listMax, hx] at hmax
            exact le_of_eq (Option.some.inj hmax)
        | some mx =>
            rw [listMax, hx] at hmax
            rw [← Option.some.inj hmax]
            exact le_max_left _ _
      · cases hx : listMax xs with
        | none =>
            cases xs with
            | nil => cases hmem'
            | cons y ys =>
                rcases listMax_cons y ys with ⟨m', hm'⟩
                rw [hm'] at hx
                cases hx
        | some mx =>
            rw [listMax, hx] at hmax
            rw [← Option.some.inj hmax]
            exact le_trans (ih hx hmem') (le_max_right _ _)

lemma self_mem_windowAt {xs : List (Option ℚ)} {i w : ℕ}
    (hi : i < xs.length) (hw : 1 ≤ w) :
    xs.getD i none ∈ windowAt xs w i := by
  have hk : i + 1 - w ≤ i := by omega
  have h2 : (i + 1 - w) + (i - (i + 1 - w)) = i := by omega
  have hq : (windowAt xs w i)[i - (i + 1 - w)]? = xs[i]? := by
    unfold windowAt
    rw [List.getElem?_drop, h2]
    exact List.getElem?_take_of_lt (by omega)
  have hsome : xs[i]? = some (xs.getD i none) := by
    rw [List.getElem?_eq_getElem hi, List.getD_eq_getElem?_getD,
      List.getElem?_eq_getElem hi]
    rfl
  exact List.getElem?_mem (by rw [hq, hsome])

/-- C8: at every output row whose trailing 52-week maximum is absent
or zero, the percent-from-high cell is absent: the `np.where` guard
turns the zero/absent-denominator cases into NaN, and the embedding is
a total function into `Option ℚ` (no exception, no infinity, no NaN
propagated as a value). -/
theorem C8_zero_or_absent_high_gives_absent_pct :
    ∀ (ps : List PriceRow) (qdf : List Snap) (info : Info) (cfg : Config)
      (i : ℕ),
      (((process_data ps qdf info cfg).getD i outNone).wk52_high = none ∨
       ((process_data ps qdf info cfg).getD i outNone).wk52_high = some 0) →
      ((process_data ps qdf info cfg).getD i outNone).pct_from_52wk_high
        = none := by
  intro ps qdf info cfg i h
  by_cases hn : i < ps.length
  · rw [process_data_getD ps qdf info cfg hn] at h ⊢
    rw [outRowAt_pct]
    set_option linter.unnecessarySeqFocus false in
    rcases hcl : ((workingTable ps qdf).getD i rowNone).close with _ | c <;>
      rcases h with h | h <;> rw [outRowAt_wk52] at h <;> rw [h] <;> simp
  · rw [process_data_getD_ge ps qdf info cfg (le_of_not_lt hn)] at h ⊢
    rfl

/-- Witness for C8: a single bar whose close is 0 has a zero trailing
maximum and an absent percent-from-high. -/
theorem C8_zero_or_absent_high_gives_absent_pct_witness :
    ((process_data [⟨0, none, none, none, some 0, none⟩] [] 
        ⟨none, none, none, none, none, none⟩ {}).getD 0 outNone).wk52_high
      = some 0 ∧
    ((process_data [⟨0, none, none, none, some 0, none⟩] []
        ⟨none, none, none, none, none, none⟩ {}).getD 0 outNone).pct_from_52wk_high
      = none :=
  ⟨by decide,
   C8_zero_or_absent_high_gives_absent_pct
     [⟨0, none, none, none, some 0, none⟩] []
     ⟨none, none, none, none, none, none⟩ {} 0 (Or.inr (by decide))⟩

/-- C7: every defined percent-from-52-week-high cell is ≤ 0.  In the
source the trailing maximum is taken over `close` itself (window
including the current row), so the bound holds without any
close-≤-high assumption; the only precondition is the pandas one that
the configured window is at least 1. -/
theorem C7_pct_from_high_nonpositive :
    ∀ (ps : List PriceRow) (qdf : List Snap) (info : Info) (cfg : Config)
      (i : ℕ) (p : ℚ),
      1 ≤ cfg.rolling_days_for_52week →
      ((process_data ps qdf info cfg).getD i outNone).pct_from_52wk_high
        = some p →
      p ≤ 0 := by
  intro ps qdf info cfg i p hw hp
  by_cases hn : i < ps.length
  · rw [process_data_getD ps qdf info cfg hn, outRowAt_pct] at hp
    rcases hcl : ((workingTable ps qdf).getD i rowNone).close with _ | c
    · rw [hcl] at hp
      rcases hmax : rollingMax cfg.rolling_days_for_52week
          ((workingTable ps qdf).map (fun r => r.close)) i with _ | h <;>
        rw [hmax] at hp <;> exact (Option.noConfusion hp)
    · rw [hcl] at hp
      rcases hmax : rollingMax cfg.rolling_days_for_52week
          ((workingTable ps qdf).map (fun r => r.close)) i with _ | h
      · rw [hmax] at hp
        exact (Option.noConfusion hp)
      · rw [hmax] at hp
        have hp2 : (if 0 < h then some ((c - h) / h) else none) = some p := hp
        by_cases hh : 0 < h
        · rw [if_pos hh] at hp2
          have hiw : i < (workingTable ps qdf).length := by
            rw [workingTable_length]; exact hn
          have hic : i < ((workingTable ps qdf).map (fun r => r.close)).length := by
            simpa using hiw
          have hg : ((workingTable ps qdf).map (fun r => r.close)).getD i none
              = some c := by
            rw [getD_map_close hiw, hcl]
          have hmem : some c ∈ windowAt
              ((workingTable ps qdf).map (fun r => r.close))
              cfg.rolling_days_for_52week i := by
            rw [← hg]
            exact self_mem_windowAt hic hw
          have hcm : c ≤ h :=
            listMax_ge hmax (List.reduceOption_mem_iff.mpr hmem)
          have hpe : p = (c - h) / h := (Option.some.inj hp2).symm
          rw [hpe]
          exact div_nonpos_iff.mpr (Or.inr ⟨sub_nonpos.mpr hcm, le_of_lt hh⟩)
        · rw [if_neg hh] at hp2
          exact (Option.noConfusion hp2)
  · rw [process_data_getD_ge ps qdf info cfg (le_of_not_lt hn)] at hp
    exact (Option.noConfusion hp)

/-- Witness for C7: a single bar closing at 10 sits exactly at its own
trailing maximum, so its percent-from-high is 0 ≤ 0. -/
theorem C7_pct_from_high_nonpositive_witness :
    1 ≤ (({} : Config)).rolling_days_for_52week ∧
    ((process_data [⟨0, none, some 10, none, some 10, none⟩] []
        ⟨none, none, none, none, none, none⟩ {}).getD 0 outNone).pct_from_52wk_high
      = some (((10:ℚ) - 10) / 10) ∧ ((10:ℚ) - 10) / 10 ≤ 0 :=
  ⟨by decide, rfl,
   C7_pct_from_high_nonpositive [⟨0, none, some 10, none, some 10, none⟩] []
     ⟨none, none, none, none, none, none⟩ {} 0 (((10:ℚ) - 10) / 10)
     (by decide) rfl⟩

lemma outRowAt_sma50 (ps : List PriceRow) (qdf : List Snap) (info : Info)
    (cfg : Config) (i : ℕ) :
    (outRowAt ps qdf info cfg i).sma_50 =
      rollingMean cfg.sma_short_window
        (min cfg.sma_short_window (max 1 (workingTable ps qdf).length))
        ((workingTable ps qdf).map (fun r => r.close)) i := rfl

lemma outRowAt_sma200 (ps : List PriceRow) (qdf : List Snap) (info : Info)
    (cfg : Config) (i : ℕ) :
    (outRowAt ps qdf info cfg i).sma_200 =
      rollingMean cfg.min_trading_days_for_sma
        (min cfg.min_trading_days_for_sma (max 1 (workingTable ps qdf).length))
        ((workingTable ps qdf).map (fun r => r.close)) i := rfl

lemma ffillGo_close_all_some :
    ∀ (rows : List Row) (prev : Row),
      (∀ r ∈ rows, r.close.isSome) →
      ∀ r ∈ ffillGo prev rows, r.close.isSome := by
  intro rows
  induction rows with
  | nil => intro prev _ r hr; cases hr
  | cons x xs ih =>
      intro prev h r hr
      rcases List.mem_cons.mp hr with rfl | hr'
      · have hx := h x (List.mem_cons_self _ _)
        rcases hx2 : x.close with _ | c
        · rw [hx2] at hx; cases hx
        · simp [fillRow, fillField, hx2]
      · exact ih (fillRow prev x)
          (fun r hr => h r (List.mem_cons_of_mem _ hr)) r hr'

lemma reduceOption_length_of_all_some :
    ∀ (xs : List (Option ℚ)), (∀ x ∈ xs, x.isSome) →
      xs.reduceOption.length = xs.length := by
  intro xs
  induction xs with
  | nil => intro _; rfl
  | cons x t ih =>
      intro h
      rcases hx : x with _ | c
      · have := h x (List.mem_cons_self _ _)
        rw [hx] at this
        cases this
      · subst hx
        simp only [List.reduceOption_cons_of_some, List.length_cons]
        rw [ih (fun y hy => h y (List.mem_cons_of_mem _ hy))]

lemma windowAt_length {xs : List (Option ℚ)} {w i : ℕ} (h : i < xs.length) :
    (windowAt xs w i).length = (i + 1) - (i + 1 - w) := by
  unfold windowAt
  rw [List.length_drop, List.length_take]
  omega

lemma windowAt_sublist (xs : List (Option ℚ)) (w i : ℕ) :
    (windowAt xs w i).Sublist xs :=
  List.Sublist.trans (List.drop_sublist _ _) (List.take_sublist _ _)

lemma rollingMean_isSome_iff {w m : ℕ} {xs : List (Option ℚ)} {i : ℕ} :
    (rollingMean w m xs i).isSome ↔
      max m 1 ≤ ((windowAt xs w i).reduceOption).length := by
  unfold rollingMean
  split <;> rename_i h <;> simp [h]

/-- Counterexample to C1 as stated: for the two-bar series with closes
10 and 20 under the default configuration, the output is non-empty but
row 0 has absent sma_50 and sma_200 cells — the source's adaptive rule
is min_periods = min(window, len(series)), not a minimum of 1, so
early rows of any series shorter than the window (and the first W−1
rows of longer series) are left undefined. -/
theorem C1_counterexample_sma_absent :
    0 < (process_data [⟨0, none, none, none, some 10, none⟩,
        ⟨1, none, none, none, some 20, none⟩] []
        ⟨none, none, none, none, none, none⟩ {}).length ∧
    ((process_data [⟨0, none, none, none, some 10, none⟩,
        ⟨1, none, none, none, some 20, none⟩] []
        ⟨none, none, none, none, none, none⟩ {}).getD 0 outNone).sma_50
      = none ∧
    ((process_data [⟨0, none, none, none, some 10, none⟩,
        ⟨1, none, none, none, some 20, none⟩] []
        ⟨none, none, none, none, none, none⟩ {}).getD 0 outNone).sma_200
      = none := by
  refine ⟨by decide, by decide, by decide⟩

/-- C1 (amended): with every close defined and windows ≥ 1 (the pandas
precondition), the SMA cell at row `i` is defined iff at least
min(window, N) observations have accrued, i.e. iff
min(window, N) ≤ i+1.  So the last row always populates even for short
histories, but rows before that threshold are absent, not averaged
over a minimum of one observation. -/
theorem C1_sma_definedness_amended :
    ∀ (ps : List PriceRow) (qdf : List Snap) (info : Info) (cfg : Config)
      (i : ℕ),
      (∀ p ∈ ps, p.close.isSome) →
      1 ≤ cfg.sma_short_window →
      1 ≤ cfg.min_trading_days_for_sma →
      i < ps.length →
      (((process_data ps qdf info cfg).getD i outNone).sma_50.isSome ↔
        min cfg.sma_short_window ps.length ≤ i + 1) ∧
      (((process_data ps qdf info cfg).getD i outNone).sma_200.isSome ↔
        min cfg.min_trading_days_for_sma ps.length ≤ i + 1) := by
  intro ps qdf info cfg i hclose hws hwl hn
  have hwt : ∀ r ∈ workingTable ps qdf, r.close.isSome := by
    apply ffillGo_close_all_some
    intro r hr
    rcases List.mem_map.mp hr with ⟨p, hp, rfl⟩
    simpa [mergedRow] using hclose p hp
  have hcol : ∀ x ∈ (workingTable ps qdf).map (fun r => r.close), x.isSome := by
    intro x hx
    rcases List.mem_map.mp hx with ⟨r, hr, rfl⟩
    exact hwt r hr
  have hicol : i < ((workingTable ps qdf).map (fun r => r.close)).length := by
    rw [List.length_map, workingTable_length]
    exact hn
  have hwin : ∀ w,
      ((windowAt ((workingTable ps qdf).map (fun r => r.close)) w i).reduceOption).length
        = (i + 1) - (i + 1 - w) := by
    intro w
    rw [reduceOption_length_of_all_some _
      (fun x hx => hcol x ((windowAt_sublist _ w i).mem hx)),
      windowAt_length hicol]
  rw [process_data_getD ps qdf info cfg hn]
  constructor
  · rw [outRowAt_sma50, rollingMean_isSome_iff, hwin, workingTable_length]
    omega
  · rw [outRowAt_sma200, rollingMean_isSome_iff, hwin, workingTable_length]
    omega

/-- Witness for the amended C1: on the same two-bar series the last
row (i = 1) has its SMAs defined, since min(50, 2) = 2 ≤ 2. -/
theorem C1_sma_definedness_amended_witness :
    ((process_data [⟨0, none, none, none, some 10, none⟩,
        ⟨1, none, none, none, some 20, none⟩] []
        ⟨none, none, none, none, none, none⟩ {}).getD 1 outNone).sma_50.isSome
      ↔ min ({} : Config).sma_short_window 2 ≤ 2 :=
  (C1_sma_definedness_amended
    [⟨0, none, none, none, some 10, none⟩, ⟨1, none, none, none, some 20, none⟩]
    [] ⟨none, none, none, none, none, none⟩ {} 1
    (by decide) (by decide) (by decide) (by decide)).1

lemma workingTable_map_close (ps : List PriceRow) (qdf : List Snap) :
    (workingTable ps qdf).map (fun r => r.close) =
      ffillCol (ps.map (fun p => p.close)) := by
  unfold workingTable ffill_rows ffillCol
  rw [ffillGo_map_close]
  have h : (ps.map (mergedRow qdf)).map (fun r => r.close) =
      ps.map (fun p => p.close) := by
    rw [List.map_map]
    rfl
  rw [h]
  rfl

lemma workingTable_map_high (ps : List PriceRow) (qdf : List Snap) :
    (workingTable ps qdf).map (fun r => r.high) =
      ffillCol (ps.map (fun p => p.high)) := by
  unfold workingTable ffill_rows ffillCol
  rw [ffillGo_map_high]
  have h : (ps.map (mergedRow qdf)).map (fun r => r.high) =
      ps.map (fun p => p.high) := by
    rw [List.map_map]
    rfl
  rw [h]
  rfl

lemma ffillColGo_all_some :
    ∀ (xs : List (Option ℚ)) (prev : Option ℚ),
      (∀ x ∈ xs, x.isSome) → ffillColGo prev xs = xs := by
  intro xs
  induction xs with
  | nil => intro prev _; rfl
  | cons x t ih =>
      intro prev h
      rcases hx : x with _ | c
      · have := h x (List.mem_cons_self _ _)
        rw [hx] at this
        cases this
      · subst hx
        simp only [ffillColGo, fillField]
        rw [ih (some c) (fun y hy => h y (List.mem_cons_of_mem _ hy))]

/-- Counterexample to C2 as stated: for a single bar with high 10 and
close 5, the output 52-week-high cell is 5 — the source takes the
rolling max of `close` (src/processor.py line 148), not of `high`,
whose trailing maximum would be 10. -/
theorem C2_counterexample_rolling_high_uses_close :
    ((process_data [⟨0, none, some 10, none, some 5, none⟩] []
        ⟨none, none, none, none, none, none⟩ {}).getD 0 outNone).wk52_high
      = some 5 ∧
    rollingHigh_specModel [⟨0, none, some 10, none, some 5, none⟩]
        ({} : Config).rolling_days_for_52week 0 = some 10 ∧
    ((process_data [⟨0, none, some 10, none, some 5, none⟩] []
        ⟨none, none, none, none, none, none⟩ {}).getD 0 outNone).wk52_high
      ≠ rollingHigh_specModel [⟨0, none, some 10, none, some 5, none⟩]
          ({} : Config).rolling_days_for_52week 0 :=
  ⟨by decide, by decide, by decide⟩

/-- C2 (amended): with every close defined, the 52-week-high cell at
row `i` is the trailing maximum of the `close` field (not of `high`)
over the configured window ending at `i`, with the minimum-one-
observation rule. -/
theorem C2_rolling_high_amended :
    ∀ (ps : List PriceRow) (qdf : List Snap) (info : Info) (cfg : Config)
      (i : ℕ),
      (∀ p ∈ ps, p.close.isSome) →
      i < ps.length →
      ((process_data ps qdf info cfg).getD i outNone).wk52_high =
        rollingMax cfg.rolling_days_for_52week
          (ps.map (fun p => p.close)) i := by
  intro ps qdf info cfg i hclose hn
  rw [process_data_getD ps qdf info cfg hn, outRowAt_wk52,
    workingTable_map_close, ffillCol,
    ffillColGo_all_some _ _ (by
      intro x hx
      rcases List.mem_map.mp hx with ⟨p, hp, rfl⟩
      exact hclose p hp)]

/-- Witness for the amended C2: the single bar with high 10, close 5. -/
theorem C2_rolling_high_amended_witness :
    ((process_data [⟨0, none, some 10, none, some 5, none⟩] []
        ⟨none, none, none, none, none, none⟩ {}).getD 0 outNone).wk52_high =
      rollingMax ({} : Config).rolling_days_for_52week
        [some 5] 0 :=
  C2_rolling_high_amended [⟨0, none, some 10, none, some 5, none⟩] []
    ⟨none, none, none, none, none, none⟩ {} 0 (by decide) (by decide)

/-- C9 (implicit): the line-129 `ffill` is whole-table — the output's
close and high columns are the forward fill of the input price
columns, not only the fundamental columns, and the SMA cells are
computed from the filled close column; a close absent at row i > 0 is
silently replaced by the most recent earlier close before any
indicator is computed. -/
theorem C9_ffill_fills_price_columns :
    ∀ (ps : List PriceRow) (qdf : List Snap) (info : Info) (cfg : Config),
      (process_data ps qdf info cfg).map (fun r => r.close) =
        ffillCol (ps.map (fun p => p.close)) ∧
      (process_data ps qdf info cfg).map (fun r => r.high) =
        ffillCol (ps.map (fun p => p.high)) ∧
      ∀ i, i < ps.length →
        ((process_data ps qdf info cfg).getD i outNone).sma_50 =
          rollingMean cfg.sma_short_window
            (min cfg.sma_short_window (max 1 ps.length))
            (ffillCol (ps.map (fun p => p.close))) i := by
  intro ps qdf info cfg
  refine ⟨?_, ?_, ?_⟩
  · unfold process_data
    rw [List.map_map]
    have h : ((fun r => r.close) ∘ outRowAt ps qdf info cfg) =
        (fun i => ((workingTable ps qdf).getD i rowNone).close) := rfl
    rw [h, map_range_getD, workingTable_map_close]
  · unfold process_data
    rw [List.map_map]
    have h : ((fun r => r.high) ∘ outRowAt ps qdf info cfg) =
        (fun i => ((workingTable ps qdf).getD i rowNone).high) := rfl
    rw [h, map_range_getD, workingTable_map_high]
  · intro i hn
    rw [process_data_getD ps qdf info cfg hn, outRowAt_sma50,
      workingTable_map_close, workingTable_length]

/-- Witness for C9: with close missing at row 1 of three bars, the SMA
at row 2 is computed over the forward-filled close column
[10, 10, 30]. -/
theorem C9_ffill_fills_price_columns_witness :
    ((process_data [⟨0, none, none, none, some 10, none⟩,
        ⟨1, none, none, none, none, none⟩,
        ⟨2, none, none, none, some 30, none⟩] []
        ⟨none, none, none, none, none, none⟩ {}).getD 2 outNone).sma_50 =
      rollingMean ({} : Config).sma_short_window
        (min ({} : Config).sma_short_window (max 1 3))
        (ffillCol [some 10, none, some 30]) 2 :=
  (C9_ffill_fills_price_columns [⟨0, none, none, none, some 10, none⟩,
      ⟨1, none, none, none, none, none⟩,
      ⟨2, none, none, none, some 30, none⟩] []
      ⟨none, none, none, none, none, none⟩ {}).2.2 2 (by decide)

lemma outRowAt_ev (ps : List PriceRow) (qdf : List Snap) (info : Info)
    (cfg : Config) (i : ℕ) :
    (outRowAt ps qdf info cfg i).ev =
      compute_ev info ((workingTable ps qdf).getD i rowNone) := rfl

/-- Counterexample to C3 as stated: one price bar, no fundamentals, an
info snapshot with marketCap 100 and a total-liabilities value of 50.
The source's enterprise value is 100 + 0 − 0 (the absent row liability
contributes zero; the info snapshot is never consulted for
liabilities), while the spec's claimed fallback gives 100 + 50 − 0. -/
theorem C3_counterexample_liability_fallback_missing :
    ((process_data [⟨0, none, none, none, some 7, none⟩] []
        ⟨some 100, none, none, none, none, some 50⟩ {}).getD 0 outNone).ev
      = some ((100:ℚ) + 0 - 0) ∧
    ev_specModel ⟨some 100, none, none, none, none, some 50⟩
        ((workingTable [⟨0, none, none, none, some 7, none⟩] []).getD 0 rowNone)
      = some ((100:ℚ) + 50 - 0) ∧
    ((process_data [⟨0, none, none, none, some 7, none⟩] []
        ⟨some 100, none, none, none, none, some 50⟩ {}).getD 0 outNone).ev
      ≠ ev_specModel ⟨some 100, none, none, none, none, some 50⟩
          ((workingTable [⟨0, none, none, none, some 7, none⟩] []).getD 0
            rowNone) := by
  have h1 : ((process_data [⟨0, none, none, none, some 7, none⟩] []
      ⟨some 100, none, none, none, none, some 50⟩ {}).getD 0 outNone).ev
      = some ((100:ℚ) + 0 - 0) := rfl
  have h2 : ev_specModel ⟨some 100, none, none, none, none, some 50⟩
      ((workingTable [⟨0, none, none, none, some 7, none⟩] []).getD 0 rowNone)
      = some ((100:ℚ) + 50 - 0) := rfl
  refine ⟨h1, h2, ?_⟩
  rw [h1, h2]
  simp only [ne_eq, Option.some.injEq]
  norm_num

/-- C3 (amended): per-row enterprise value is market_cap +
total_liabilities − cash where market_cap is the truthy info value (an
unresolvable market_cap makes EV absent for the row, never zero), the
liability term is the row's own aligned value with a missing value
contributing zero — the info snapshot is NOT consulted for
liabilities, so EV is invariant under the snapshot's liability field —
and cash prefers the row's aligned value, falling back to the truthy
info cash chain, a missing value contributing zero. -/
theorem C3_enterprise_value_amended :
    ∀ (ps : List PriceRow) (qdf : List Snap) (info : Info) (cfg : Config)
      (i : ℕ), i < ps.length →
      (((process_data ps qdf info cfg).getD i outNone).ev =
        (match resolveMarketCap info with
         | none => none
         | some mc =>
             some (mc +
               (((process_data ps qdf info cfg).getD i outNone).total_liab).getD 0 -
               (match ((process_data ps qdf info cfg).getD i outNone).cash with
                | some c => some c
                | none => pyTruthy (cashInfoOf info)).getD 0))) ∧
      ∀ L : Option ℚ,
        ((process_data ps qdf
            { info with totalLiab := L } cfg).getD i outNone).ev =
          ((process_data ps qdf info cfg).getD i outNone).ev := by
  intro ps qdf info cfg i hn
  constructor
  · rw [process_data_getD ps qdf info cfg hn]
    rfl
  · intro L
    rw [process_data_getD ps qdf { info with totalLiab := L } cfg hn,
      process_data_getD ps qdf info cfg hn]
    rfl

/-- Witness for the amended C3: adding a liability figure to the info
snapshot leaves the computed enterprise value unchanged. -/
theorem C3_enterprise_value_amended_witness :
    ((process_data [⟨0, none, none, none, some 7, none⟩] []
        ⟨some 100, none, none, none, none, some 50⟩ {}).getD 0 outNone).ev =
      ((process_data [⟨0, none, none, none, some 7, none⟩] []
        ⟨some 100, none, none, none, none, none⟩ {}).getD 0 outNone).ev :=
  (C3_enterprise_value_amended [⟨0, none, none, none, some 7, none⟩] []
    ⟨some 100, none, none, none, none, none⟩ {} 0 (by decide)).2 (some 50)

/-- C10 (implicit): a market capitalisation of exactly 0 in the info
snapshot is falsy to the Python `or` chains and is treated as absent,
so enterprise value is undefined for every output row rather than
liabilities − cash; a reported cash value of exactly 0 is likewise
treated as absent by the cash fallback chain. -/
theorem C10_zero_market_cap_treated_absent :
    ∀ (ps : List PriceRow) (qdf : List Snap) (info : Info) (cfg : Config),
      info.marketCap = some 0 →
      (info.market_cap = none ∨ info.market_cap = some 0) →
      (resolveMarketCap info = none ∧
       ∀ i, ((process_data ps qdf info cfg).getD i outNone).ev = none) ∧
      ∀ info2 : Info, info2.totalCash = some 0 → info2.cash = none →
        info2.cashAndCashEquivalents = none →
        pyTruthy (cashInfoOf info2) = none := by
  intro ps qdf info cfg hmc hmc2
  have hres : resolveMarketCap info = none := by
    rcases hmc2 with h | h <;>
      simp [resolveMarketCap, pyOr, pyTruthy, hmc, h]
  refine ⟨⟨hres, ?_⟩, ?_⟩
  · intro i
    by_cases hn : i < ps.length
    · rw [process_data_getD ps qdf info cfg hn, outRowAt_ev]
      unfold compute_ev
      rw [hres]
    · rw [process_data_getD_ge ps qdf info cfg (le_of_not_lt hn)]
      rfl
  · intro info2 h1 h2 h3
    simp [cashInfoOf, pyOr, pyTruthy, h1, h2, h3]

/-- Witness for C10: with marketCap 0 the single row's enterprise
value is absent, and a totalCash of 0 resolves to an absent fallback. -/
theorem C10_zero_market_cap_treated_absent_witness :
    ((process_data [⟨0, none, none, none, some 7, none⟩] []
        ⟨some 0, none, none, none, none, none⟩ {}).getD 0 outNone).ev = none ∧
    pyTruthy (cashInfoOf ⟨none, none, some 0, none, none, none⟩) = none :=
  ⟨(C10_zero_market_cap_treated_absent [⟨0, none, none, none, some 7, none⟩]
      [] ⟨some 0, none, none, none, none, none⟩ {} rfl (Or.inl rfl)).1.2 0,
   (C10_zero_market_cap_treated_absent [⟨0, none, none, none, some 7, none⟩]
      [] ⟨some 0, none, none, none, none, none⟩ {} rfl (Or.inl rfl)).2
     ⟨none, none, some 0, none, none, none⟩ rfl rfl rfl⟩

lemma fillField_none (cur : Option ℚ) : fillField none cur = cur := by
  cases cur <;> rfl

lemma fillField_some (prev : Option ℚ) {cur : Option ℚ} (h : cur.isSome) :
    fillField prev cur = cur := by
  rcases cur with _ | c
  · cases h
  · rfl

lemma ffillGo_getD_zero' (prev : Row) (rows : List Row)
    (h : 0 < rows.length) :
    (ffillGo prev rows).getD 0 rowNone =
      fillRow prev (rows.getD 0 rowNone) := by
  cases rows with
  | nil => simp at h
  | cons r rs => rfl

lemma getD_map_of_lt {α β : Type} (f : α → β) {l : List α} {i : ℕ}
    (d : β) (d' : α) (h : i < l.length) :
    (l.map f).getD i d = f (l.getD i d') := by
  simp [List.getD_eq_getElem?_getD, List.getElem?_map,
    List.getElem?_eq_getElem h]

lemma merge_asof_match_eq_none_iff {qdf : List Snap} {d : ℕ} :
    merge_asof_match qdf d = none ↔ ∀ t ∈ qdf, d < t.date := by
  unfold merge_asof_match
  rw [List.getLast?_eq_none_iff, List.filter_eq_nil_iff]
  constructor
  · intro h t ht
    have := h t ht
    simpa using this
  · intro h t ht
    simp only [decide_eq_true_eq]
    exact Nat.not_le.mpr (h t ht)

lemma merge_asof_match_mem {qdf : List Snap} {d : ℕ} {s : Snap}
    (h : merge_asof_match qdf d = some s) : s ∈ qdf ∧ s.date ≤ d := by
  have hm := List.mem_of_getLast?_eq_some h
  have h2 := List.mem_filter.mp hm
  exact ⟨h2.1, by simpa using h2.2⟩

lemma pairwise_date_getLast_max :
    ∀ (l : List Snap), List.Pairwise (fun s t : Snap => s.date ≤ t.date) l →
      ∀ a : Snap, l.getLast? = some a → ∀ b ∈ l, b.date ≤ a.date := by
  intro l
  induction l with
  | nil => intro _ a ha; cases ha
  | cons x xs ih =>
      intro hp a ha b hb
      cases xs with
      | nil =>
          have hax : x = a := by simpa using ha
          have hbx : b = x := by simpa using hb
          rw [hbx, hax]
      | cons y ys =>
          rw [List.getLast?_cons_cons] at ha
          rcases List.mem_cons.mp hb with rfl | hb'
          · have hamem : a ∈ y :: ys := List.mem_of_getLast?_eq_some ha
            exact (List.pairwise_cons.mp hp).1 a hamem
          · exact ih (List.pairwise_cons.mp hp).2 a ha b hb'

lemma merge_asof_match_isAsof {qdf : List Snap} {d : ℕ} {s : Snap}
    (hq : List.Chain' (· ≤ ·) (qdf.map (fun t => t.date)))
    (h : merge_asof_match qdf d = some s) : IsAsof qdf d s := by
  have hp : List.Pairwise (fun a b : Snap => a.date ≤ b.date) qdf := by
    rw [List.chain'_iff_pairwise] at hq
    exact List.pairwise_map.mp hq
  have hmem := merge_asof_match_mem h
  refine ⟨hmem.1, hmem.2, ?_⟩
  intro t ht htd
  have hpf : List.Pairwise (fun a b : Snap => a.date ≤ b.date)
      (qdf.filter (fun u => u.date ≤ d)) :=
    hp.sublist (List.filter_sublist _)
  have htf : t ∈ qdf.filter (fun u => u.date ≤ d) :=
    List.mem_filter.mpr ⟨ht, by simpa using htd⟩
  exact pairwise_date_getLast_max _ hpf s h t htf

lemma prices_adjacent_lt {ps : List PriceRow}
    (h : List.Chain' (· < ·) (ps.map (fun p => p.date)))
    {j : ℕ} (hj : j + 1 < ps.length) :
    (ps.getD j priceNone).date < (ps.getD (j+1) priceNone).date := by
  rw [List.chain'_iff_get] at h
  have hj' : j < (ps.map (fun p => p.date)).length - 1 := by
    rw [List.length_map]
    omega
  have hstep := h j hj'
  have h1 : j < ps.length := by omega
  rw [getD_eq_get h1, getD_eq_get hj]
  simpa [List.get_eq_getElem, List.getElem_map] using hstep

lemma fillField_cur_none (prev : Option ℚ) : fillField prev none = prev := rfl

lemma workingTable_fund_eq (ps : List PriceRow) (qdf : List Snap)
    (hps : List.Chain' (· < ·) (ps.map (fun p => p.date)))
    (hq : ∀ s ∈ qdf, SnapComplete s) :
    ∀ i, i < ps.length →
      ((workingTable ps qdf).getD i rowNone).total_liab
          = (merge_asof_match qdf ((ps.getD i priceNone).date)).bind
              (fun s => s.total_liab) ∧
      ((workingTable ps qdf).getD i rowNone).cash
          = (merge_asof_match qdf ((ps.getD i priceNone).date)).bind
              (fun s => s.cash) := by
  intro i
  induction i with
  | zero =>
      intro h0
      have h0' : 0 < (ps.map (mergedRow qdf)).length := by
        rw [List.length_map]; exact h0
      unfold workingTable ffill_rows
      rw [ffillGo_getD_zero' _ _ h0',
        getD_map_of_lt (mergedRow qdf) rowNone priceNone h0]
      constructor
      · show fillField none
            (mergedRow qdf (ps.getD 0 priceNone)).total_liab = _
        rw [fillField_none]
        rfl
      · show fillField none
            (mergedRow qdf (ps.getD 0 priceNone)).cash = _
        rw [fillField_none]
        rfl
  | succ j ihj =>
      intro hj1
      have hj : j < ps.length := by omega
      have ihv := ihj hj
      have hadj := prices_adjacent_lt hps hj1
      have hlen : j + 1 < (ps.map (mergedRow qdf)).length := by
        rw [List.length_map]; exact hj1
      unfold workingTable ffill_rows at ihv ⊢
      rw [ffillGo_getD_succ _ rowNone j hlen,
        getD_map_of_lt (mergedRow qdf) rowNone priceNone hj1]
      rcases hm : merge_asof_match qdf ((ps.getD (j+1) priceNone).date)
          with _ | s
      · have hnone : merge_asof_match qdf ((ps.getD j priceNone).date)
            = none := by
          rw [merge_asof_match_eq_none_iff] at hm ⊢
          intro t ht
          exact lt_trans hadj (hm t ht)
        rw [hnone] at ihv
        have hcur1 : (mergedRow qdf (ps.getD (j+1) priceNone)).total_liab
            = none := by
          show (merge_asof_match qdf ((ps.getD (j+1) priceNone).date)).bind
            (fun s => s.total_liab) = none
          rw [hm]
          rfl
        have hcur2 : (mergedRow qdf (ps.getD (j+1) priceNone)).cash
            = none := by
          show (merge_asof_match qdf ((ps.getD (j+1) priceNone).date)).bind
            (fun s => s.cash) = none
          rw [hm]
          rfl
        constructor
        · show fillField
              ((ffillGo rowNone (ps.map (mergedRow qdf))).getD j rowNone).total_liab
              (mergedRow qdf (ps.getD (j+1) priceNone)).total_liab = _
          rw [hcur1, fillField_cur_none]
          exact ihv.1
        · show fillField
              ((ffillGo rowNone (ps.map (mergedRow qdf))).getD j rowNone).cash
              (mergedRow qdf (ps.getD (j+1) priceNone)).cash = _
          rw [hcur2, fillField_cur_none]
          exact ihv.2
      · have hs_mem := (merge_asof_match_mem hm).1
        have hsc1 : s.total_liab.isSome := (hq s hs_mem).1
        have hsc2 : s.cash.isSome := (hq s hs_mem).2
        rcases hl : s.total_liab with _ | lv
        · rw [hl] at hsc1
          exact absurd hsc1 (by simp)
        rcases hc : s.cash with _ | cv
        · rw [hc] at hsc2
          exact absurd hsc2 (by simp)
        have hcur1 : (mergedRow qdf (ps.getD (j+1) priceNone)).total_liab
            = some lv := by
          show (merge_asof_match qdf ((ps.getD (j+1) priceNone).date)).bind
            (fun s => s.total_liab) = some lv
          rw [hm]
          exact hl
        have hcur2 : (mergedRow qdf (ps.getD (j+1) priceNone)).cash
            = some cv := by
          show (merge_asof_match qdf ((ps.getD (j+1) priceNone).date)).bind
            (fun s => s.cash) = some cv
          rw [hm]
          exact hc
        constructor
        · show fillField
              ((ffillGo rowNone (ps.map (mergedRow qdf))).getD j rowNone).total_liab
              (mergedRow qdf (ps.getD (j+1) priceNone)).total_liab = _
          rw [hcur1]
          exact hl.symm
        · show fillField
              ((ffillGo rowNone (ps.map (mergedRow qdf))).getD j rowNone).cash
              (mergedRow qdf (ps.getD (j+1) priceNone)).cash = _
          rw [hcur2]
          exact hc.symm

lemma workingTable_price_eq (ps : List PriceRow) (qdf : List Snap)
    {i : ℕ} (hi : i < ps.length)
    (hc : PriceComplete (ps.getD i priceNone)) :
    ((workingTable ps qdf).getD i rowNone).date
        = (ps.getD i priceNone).date ∧
    ((workingTable ps qdf).getD i rowNone).openV
        = (ps.getD i priceNone).openV ∧
    ((workingTable ps qdf).getD i rowNone).high
        = (ps.getD i priceNone).high ∧
    ((workingTable ps qdf).getD i rowNone).low
        = (ps.getD i priceNone).low ∧
    ((workingTable ps qdf).getD i rowNone).close
        = (ps.getD i priceNone).close ∧
    ((workingTable ps qdf).getD i rowNone).volume
        = (ps.getD i priceNone).volume := by
  unfold workingTable ffill_rows
  cases i with
  | zero =>
      have h0' : 0 < (ps.map (mergedRow qdf)).length := by
        rw [List.length_map]; exact hi
      rw [ffillGo_getD_zero' _ _ h0',
        getD_map_of_lt (mergedRow qdf) rowNone priceNone hi]
      refine ⟨rfl, ?_, ?_, ?_, ?_, ?_⟩ <;>
        · simp only [fillRow, mergedRow, rowNone]
          exact fillField_none _
  | succ j =>
      have hlen : j + 1 < (ps.map (mergedRow qdf)).length := by
        rw [List.length_map]; exact hi
      rw [ffillGo_getD_succ _ rowNone j hlen,
        getD_map_of_lt (mergedRow qdf) rowNone priceNone hi]
      obtain ⟨ho, hh, hl, hcv, hv⟩ := hc
      refine ⟨rfl, ?_, ?_, ?_, ?_, ?_⟩
      · simp only [fillRow, mergedRow]
        exact fillField_some _ ho
      · simp only [fillRow, mergedRow]
        exact fillField_some _ hh
      · simp only [fillRow, mergedRow]
        exact fillField_some _ hl
      · simp only [fillRow, mergedRow]
        exact fillField_some _ hcv
      · simp only [fillRow, mergedRow]
        exact fillField_some _ hv

lemma outRowAt_date (ps : List PriceRow) (qdf : List Snap) (info : Info)
    (cfg : Config) (i : ℕ) :
    (outRowAt ps qdf info cfg i).date =
      ((workingTable ps qdf).getD i rowNone).date := rfl

lemma outRowAt_openV (ps : List PriceRow) (qdf : List Snap) (info : Info)
    (cfg : Config) (i : ℕ) :
    (outRowAt ps qdf info cfg i).openV =
      ((workingTable ps qdf).getD i rowNone).openV := rfl

lemma outRowAt_high (ps : List PriceRow) (qdf : List Snap) (info : Info)
    (cfg : Config) (i : ℕ) :
    (outRowAt ps qdf info cfg i).high =
      ((workingTable ps qdf).getD i rowNone).high := rfl

lemma outRowAt_low (ps : List PriceRow) (qdf : List Snap) (info : Info)
    (cfg : Config) (i : ℕ) :
    (outRowAt ps qdf info cfg i).low =
      ((workingTable ps qdf).getD i rowNone).low := rfl

lemma outRowAt_close (ps : List PriceRow) (qdf : List Snap) (info : Info)
    (cfg : Config) (i : ℕ) :
    (outRowAt ps qdf info cfg i).close =
      ((workingTable ps qdf).getD i rowNone).close := rfl

lemma outRowAt_volume (ps : List PriceRow) (qdf : List Snap) (info : Info)
    (cfg : Config) (i : ℕ) :
    (outRowAt ps qdf info cfg i).volume =
      ((workingTable ps qdf).getD i rowNone).volume := rfl

lemma outRowAt_liab (ps : List PriceRow) (qdf : List Snap) (info : Info)
    (cfg : Config) (i : ℕ) :
    (outRowAt ps qdf info cfg i).total_liab =
      ((workingTable ps qdf).getD i rowNone).total_liab := rfl

lemma outRowAt_cash (ps : List PriceRow) (qdf : List Snap) (info : Info)
    (cfg : Config) (i : ℕ) :
    (outRowAt ps qdf info cfg i).cash =
      ((workingTable ps qdf).getD i rowNone).cash := rfl

/-- C5: for ascending date-unique prices and ascending, fully-reported
snapshots: the output has exactly one row per price date (its date
column equals the price date column); every row's fundamental fields
are those of a most recent snapshot dated at-or-before the row's price
date; a row dated before every snapshot carries absent — not zero —
fundamental fields (no backward fill); and with an empty fundamentals
list, fully-populated price rows pass through unchanged with absent
fundamental fields. -/
theorem C5_asof_alignment :
    ∀ (ps : List PriceRow) (qdf : List Snap) (info : Info) (cfg : Config),
      List.Chain' (· < ·) (ps.map (fun p => p.date)) →
      List.Chain' (· ≤ ·) (qdf.map (fun s => s.date)) →
      (∀ s ∈ qdf, SnapComplete s) →
      ((process_data ps qdf info cfg).map (fun r => r.date) =
        ps.map (fun p => p.date)) ∧
      (∀ i, i < ps.length →
        ((∃ s, IsAsof qdf (ps.getD i priceNone).date s ∧
           ((process_data ps qdf info cfg).getD i outNone).total_liab
             = s.total_liab ∧
           ((process_data ps qdf info cfg).getD i outNone).cash = s.cash) ∨
         ((∀ t ∈ qdf, (ps.getD i priceNone).date < t.date) ∧
           ((process_data ps qdf info cfg).getD i outNone).total_liab
             = none ∧
           ((process_data ps qdf info cfg).getD i outNone).cash = none))) ∧
      (qdf = [] →
        ∀ i, i < ps.length → PriceComplete (ps.getD i priceNone) →
          ((process_data ps qdf info cfg).getD i outNone).date
              = (ps.getD i priceNone).date ∧
          ((process_data ps qdf info cfg).getD i outNone).openV
              = (ps.getD i priceNone).openV ∧
          ((process_data ps qdf info cfg).getD i outNone).high
              = (ps.getD i priceNone).high ∧
          ((process_data ps qdf info cfg).getD i outNone).low
              = (ps.getD i priceNone).low ∧
          ((process_data ps qdf info cfg).getD i outNone).close
              = (ps.getD i priceNone).close ∧
          ((process_data ps qdf info cfg).getD i outNone).volume
              = (ps.getD i priceNone).volume ∧
          ((process_data ps qdf info cfg).getD i outNone).total_liab
              = none ∧
          ((process_data ps qdf info cfg).getD i outNone).cash = none) := by
  intro ps qdf info cfg hps hq hcomp
  refine ⟨?_, ?_, ?_⟩
  · unfold process_data
    rw [List.map_map]
    have h : ((fun r : OutRow => r.date) ∘ outRowAt ps qdf info cfg) =
        (fun i => ((workingTable ps qdf).getD i rowNone).date) := rfl
    rw [h, map_range_getD]
    unfold workingTable ffill_rows
    rw [ffillGo_map_date, List.map_map]
    rfl
  · intro i hi
    have hfund := workingTable_fund_eq ps qdf hps hcomp i hi
    rcases hm : merge_asof_match qdf ((ps.getD i priceNone).date) with _ | s
    · right
      refine ⟨merge_asof_match_eq_none_iff.mp hm, ?_, ?_⟩
      · rw [process_data_getD ps qdf info cfg hi, outRowAt_liab,
          hfund.1, hm]
        rfl
      · rw [process_data_getD ps qdf info cfg hi, outRowAt_cash,
          hfund.2, hm]
        rfl
    · left
      refine ⟨s, merge_asof_match_isAsof hq hm, ?_, ?_⟩
      · rw [process_data_getD ps qdf info cfg hi, outRowAt_liab,
          hfund.1, hm]
        rfl
      · rw [process_data_getD ps qdf info cfg hi, outRowAt_cash,
          hfund.2, hm]
        rfl
  · intro hqe i hi hpc
    subst hqe
    have hpr := workingTable_price_eq ps [] hi hpc
    have hfund := workingTable_fund_eq ps [] hps
      (by intro s hs; cases hs) i hi
    have hmn : merge_asof_match ([] : List Snap)
        ((ps.getD i priceNone).date) = none := rfl
    rw [hmn] at hfund
    refine ⟨?_, ?_, ?_, ?_, ?_, ?_, ?_, ?_⟩
    · rw [process_data_getD ps [] info cfg hi, outRowAt_date]
      exact hpr.1
    · rw [process_data_getD ps [] info cfg hi, outRowAt_openV]
      exact hpr.2.1
    · rw [process_data_getD ps [] info cfg hi, outRowAt_high]
      exact hpr.2.2.1
    · rw [process_data_getD ps [] info cfg hi, outRowAt_low]
      exact hpr.2.2.2.1
    · rw [process_data_getD ps [] info cfg hi, outRowAt_close]
      exact hpr.2.2.2.2.1
    · rw [process_data_getD ps [] info cfg hi, outRowAt_volume]
      exact hpr.2.2.2.2.2
    · rw [process_data_getD ps [] info cfg hi, outRowAt_liab]
      simpa using hfund.1
    · rw [process_data_getD ps [] info cfg hi, outRowAt_cash]
      simpa using hfund.2

/-- Witness for C5: two ascending bars and one complete snapshot dated
between them; the output date column equals the price date column. -/
theorem C5_asof_alignment_witness :
    (process_data [⟨10, some 1, some 2, some 1, some 2, some 3⟩,
        ⟨20, some 1, some 2, some 1, some 2, some 3⟩]
      [⟨15, some 5, some 3⟩]
      ⟨none, none, none, none, none, none⟩ {}).map (fun r => r.date) =
      [10, 20] :=
  (C5_asof_alignment [⟨10, some 1, some 2, some 1, some 2, some 3⟩,
      ⟨20, some 1, some 2, some 1, some 2, some 3⟩]
    [⟨15, some 5, some 3⟩] ⟨none, none, none, none, none, none⟩ {}
    (by simp)
    (by simp)
    (by
      intro s hs
      rw [List.mem_singleton] at hs
      subst hs
      exact ⟨rfl, rfl⟩)).1
